import Mathlib

/-!
Verification of the LoomLite backend algorithms.

Shallow embedding of the Python sources:
- `backend/semantic_cluster.py` (relation graph, cluster identification)
- `backend/adaptive_hierarchy.py` (hierarchy depth, refinement groups, adaptive build)
- `backend/semantic_folders.py` (auto-sort scoring)
- `backend/api.py`, search endpoint step 5 (score fusion, threshold, match type)

Floats are modelled as rationals, dictionaries as association lists (insertion
ordered, as in Python 3.7+), and the stable Timsort of list.sort as a stable
insertion sort over the same ordering relation.
-/

namespace LoomLite

/-- Models Python round(x, 3): round to three decimal places. The exact
tie-breaking mode of the float round is irrelevant to every statement below. -/
def round3 (q : ℚ) : ℚ := (round (q * 1000) : ℚ) / 1000

namespace SemanticCluster

/-- Concept node from models.py; only the fields read by the clustering
functions of semantic_cluster.py are embedded. -/
structure Concept where
  concept_id : String
  label : String
deriving DecidableEq

/-- Directed relation edge from models.py; only the fields read by
build_relation_graph are embedded. -/
structure Relation where
  src : String
  rel : String
  dst : String
deriving DecidableEq

/-- The relation graph of build_relation_graph: a Python defaultdict from
concept id to a list of (relation type, target id) pairs, modelled as an
insertion-ordered association list. -/
abbrev Graph := List (String × List (String × String))

/-- CLUSTERING_CONFIG cluster_relations: relation types that indicate
hierarchy (a Python set; only membership is used). -/
def clusterRelations : List String := ["defines", "contains", "supports", "develops"]

/-- Append one edge to the adjacency list of key, creating the entry at the
end if the key is absent (defaultdict(list) update semantics). -/
def addEdge : Graph → String → String × String → Graph
  | [], key, e => [(key, [e])]
  | (k, es) :: rest, key, e =>
    if k = key then (k, es ++ [e]) :: rest else (k, es) :: addEdge rest key e

/-- build_relation_graph from semantic_cluster.py: for every relation, insert
the forward edge (rel, dst) under src and the reverse edge (~rel, src) under
dst. -/
def build_relation_graph (relations : List Relation) : Graph :=
  relations.foldl
    (fun g r => addEdge (addEdge g r.src (r.rel, r.dst)) r.dst ("~" ++ r.rel, r.src)) []

/-- relation_graph.get(id, []). -/
def graphGet (g : Graph) (id : String) : List (String × String) :=
  ((g.find? (fun p => p.1 == id)).map Prod.snd).getD []

/-- All target ids occurring in the graph (used to bound breadth-first
traversal). -/
def graphTargets (g : Graph) : List String :=
  (g.map (fun p => p.2.map Prod.snd)).flatten

/-- Inner loop of the breadth-first traversal in identify_clusters: walk the
edge list of the current node and add each allow-listed, unvisited target that
is not yet in the cluster to both the cluster and the queue. -/
def addTargets : List (String × String) → List String → List String → List String →
    List String × List String
  | [], _, cluster, queue => (cluster, queue)
  | (rel_type, target) :: edges, visited, cluster, queue =>
    if rel_type ∈ clusterRelations ∧ target ∉ visited ∧ target ∉ cluster then
      addTargets edges visited (cluster ++ [target]) (queue ++ [target])
    else
      addTargets edges visited cluster queue

/-- The while loop of identify_clusters: pop the queue head, process its
edges, then mark it visited. The fuel argument bounds the number of
iterations; identify_clusters passes enough fuel for the queue to drain
(bfs_spec below), so the model agrees with the unbounded Python loop. -/
def bfs (g : Graph) : Nat → List String → List String → List String →
    List String × List String
  | 0, _, cluster, visited => (cluster, visited)
  | _ + 1, [], cluster, visited => (cluster, visited)
  | fuel + 1, current :: rest, cluster, visited =>
    bfs g fuel
      (addTargets (graphGet g current) visited cluster rest).2
      (addTargets (graphGet g current) visited cluster rest).1
      (visited ++ [current])

/-- Fuel that always suffices for one breadth-first traversal: the cluster can
never exceed the seed plus all targets of the graph. -/
def bfsFuel (g : Graph) : Nat := 1 + (graphTargets g).length

/-- The outer for loop of identify_clusters over the concept list, threading
the shared visited set and collecting components of size at least 2. -/
def identifyAux (g : Graph) : List Concept → List (List String) → List String →
    List (List String)
  | [], clusters, _ => clusters
  | c :: rest, clusters, visited =>
    if c.concept_id ∈ visited then identifyAux g rest clusters visited
    else
      let p := bfs g (bfsFuel g) [c.concept_id] [c.concept_id] visited
      if 2 ≤ p.1.length then identifyAux g rest (clusters ++ [p.1]) p.2
      else identifyAux g rest clusters p.2

/-- identify_clusters from semantic_cluster.py. -/
def identify_clusters (concepts : List Concept) (g : Graph) : List (List String) :=
  identifyAux g concepts [] []

end SemanticCluster

namespace AdaptiveHierarchy

/-- Concept node as adaptive_hierarchy.py uses it: that module constructs and
reads concepts through an id field (plus the label, type, confidence,
hierarchy and parent fields it assigns). -/
structure Concept where
  id : String
  doc_id : String
  label : String
  type : String
  confidence : ℚ
  hierarchy_level : Option ℤ := none
  parent_cluster_id : Option String := none
  parent_concept_id : Option String := none
  coherence : Option ℚ := none
deriving DecidableEq

/-- A relation dictionary as stored in the relation graph consumed by
adaptive_hierarchy.py; only the rel key is read (create_sub_concepts). -/
structure RelEdge where
  rel : String
  dst : String
deriving DecidableEq

/-- The relation graph passed to build_adaptive_hierarchy: concept id to the
list of relation dictionaries touching it, as an insertion-ordered
association list. -/
abbrev RelationGraph := List (String × List RelEdge)

/-- relation_graph.get(id, []). -/
def relGraphGet (g : RelationGraph) (id : String) : List RelEdge :=
  ((g.find? (fun p => p.1 == id)).map Prod.snd).getD []

/-- Cluster dictionary consumed by build_adaptive_hierarchy: id, doc_id,
label, member concepts, and an optional coherence (cluster.get with default
0.85). -/
structure Cluster where
  id : String
  doc_id : String
  label : String
  concepts : List Concept
  coherence : Option ℚ := none
deriving DecidableEq

/-- determine_hierarchy_depth from adaptive_hierarchy.py: base depth 4,
raised to 5 on doc_length > 2000 or concept_count > 40, raised to 6 on
doc_length > 5000 or concept_count > 80 (cluster_count is accepted but
unused, as in the source). -/
def determine_hierarchy_depth (doc_length concept_count cluster_count : ℕ) : ℕ :=
  let depth := 4
  let depth := if 2000 < doc_length ∨ 40 < concept_count then 5 else depth
  let depth := if 5000 < doc_length ∨ 80 < concept_count then 6 else depth
  depth

/-- Structural worker for chunkGroups: the fuel argument only bounds the
recursion depth and never runs out when it starts at the list length, since
every chunk consumes at least one element. -/
def chunkGo (gs : ℕ) : ℕ → List α → List (List α)
  | _, [] => []
  | 0, x :: xs => [x :: xs]
  | n + 1, x :: xs => (x :: xs.take (gs - 1)) :: chunkGo gs n (xs.drop (gs - 1))

/-- The chunking loop of create_refinement_groups: for i in
range(0, len, group_size), take the slice [i : i+group_size]. Agrees with the
Python loop for every group_size ≥ 1 (the only sizes that occur: the caller
passes max 3 _). -/
def chunkGroups (gs : ℕ) (l : List α) : List (List α) := chunkGo gs l.length l

/-- The descending relation-degree order used by create_refinement_groups:
a may come before b when the degree of b is at most the degree of a. Python
list.sort with key=relation count and reverse=True is a stable sort for
exactly this relation, so the stable insertionSort below computes the same
list. -/
def degreeGE (g : RelationGraph) (a b : Concept) : Prop :=
  (relGraphGet g b.id).length ≤ (relGraphGet g a.id).length

instance (g : RelationGraph) : DecidableRel (degreeGE g) := fun a b =>
  inferInstanceAs (Decidable ((relGraphGet g b.id).length ≤ (relGraphGet g a.id).length))

/-- create_refinement_groups from adaptive_hierarchy.py: clusters of at most
5 members stay whole; larger ones are sorted by relation count (descending,
stable) and cut into contiguous chunks of size max 3 (length / 3) - floor
division, as in the Python source. -/
def create_refinement_groups (concepts : List Concept) (relation_graph : RelationGraph) :
    List (List Concept) :=
  if concepts.length ≤ 5 then [concepts]
  else
    chunkGroups (max 3 (concepts.length / 3))
      (List.insertionSort (degreeGE relation_graph) concepts)

/-- Modelled from the claim: the variant of create_refinement_groups whose
chunk size is max 3 of the CEILING of length / 3, stated for comparison with
the floor division the source performs. -/
def create_refinement_groups_claim (concepts : List Concept) (relation_graph : RelationGraph) :
    List (List Concept) :=
  if concepts.length ≤ 5 then [concepts]
  else
    chunkGroups (max 3 ((concepts.length + 2) / 3))
      (List.insertionSort (degreeGE relation_graph) concepts)

/-- Python str.title(): the first alphabetic character of each run of
alphabetic characters is uppercased, the rest lowercased. -/
def pyTitle (s : String) : String :=
  String.mk (s.data.foldl (fun (acc : List Char × Bool) ch =>
    if ch.isAlpha then (acc.1 ++ [if acc.2 then ch.toLower else ch.toUpper], true)
    else (acc.1 ++ [ch], false)) ([], false)).1

/-- Relation types in order of first occurrence: the keys of the defaultdict
built by create_sub_concepts (insertion ordered). -/
def relTypesInOrder (rels : List RelEdge) : List String :=
  rels.foldl (fun acc r => if r.rel ∈ acc then acc else acc ++ [r.rel]) []

/-- should_create_subconcepts from adaptive_hierarchy.py: 3 or more touching
relations, or a complex type. -/
def should_create_subconcepts (concept : Concept) (relation_graph : RelationGraph) : Prop :=
  3 ≤ (relGraphGet relation_graph concept.id).length ∨
    concept.type ∈ ["Process", "Technology", "Feature", "Project"]

instance (c : Concept) (g : RelationGraph) : Decidable (should_create_subconcepts c g) :=
  inferInstanceAs (Decidable (_ ∨ _))

/-- create_sub_concepts from adaptive_hierarchy.py: one synthetic sub-concept
per distinct relation type (first three types, in first-occurrence order). -/
def create_sub_concepts (parent_concept : Concept) (relation_graph : RelationGraph)
    (doc_id : String) : List Concept :=
  ((relTypesInOrder (relGraphGet relation_graph parent_concept.id)).take 3).enum.map
    (fun p =>
      { id := parent_concept.id ++ "_sub_" ++ toString p.1
        doc_id := doc_id
        label := parent_concept.label ++ " - " ++ pyTitle (p.2.replace "_" " ")
        type := parent_concept.type
        confidence := 0.75
        hierarchy_level := some 5
        parent_cluster_id := none
        parent_concept_id := some parent_concept.id
        coherence := some 0.75 })

/-- build_adaptive_hierarchy from adaptive_hierarchy.py. The LLM label
provider generate_refinement_label is passed in as the fixed function
labelFn (group concepts, parent cluster label to label), as the spec treats
it. Everything else is the source control flow: per cluster, emit the level 2
cluster node; refine when the cluster has more than 5 members (and the target
depth is at least 3), emitting level 3 refinement nodes and their members at
level 4, with level 5 sub-concepts under complex members when the target
depth is at least 5; otherwise attach members directly to the cluster. -/
def build_adaptive_hierarchy (labelFn : List Concept → String → String)
    (concepts : List Concept) (clusters : List Cluster)
    (relation_graph : RelationGraph) (doc_length : ℕ) : List Concept :=
  let target_depth := determine_hierarchy_depth doc_length concepts.length clusters.length
  clusters.foldl (fun acc cluster =>
    let cluster_concept : Concept :=
      { id := cluster.id
        doc_id := cluster.doc_id
        label := cluster.label
        type := "Cluster"
        confidence := cluster.coherence.getD 0.85
        hierarchy_level := some 2
        parent_cluster_id := none
        parent_concept_id := none
        coherence := some (cluster.coherence.getD 0.85) }
    let acc := acc ++ [cluster_concept]
    if 5 < cluster.concepts.length ∧ 3 ≤ target_depth then
      (create_refinement_groups cluster.concepts relation_graph).enum.foldl
        (fun acc p =>
          let ref_id := cluster.id ++ "_ref_" ++ toString p.1
          let ref_group := p.2
          let refinement_concept : Concept :=
            { id := ref_id
              doc_id := cluster.doc_id
              label := labelFn ref_group cluster.label
              type := "Refinement"
              confidence := 0.80
              hierarchy_level := some 3
              parent_cluster_id := some cluster.id
              parent_concept_id := none
              coherence := some 0.80 }
          let acc := acc ++ [refinement_concept]
          ref_group.foldl (fun acc concept =>
            if target_depth = 4 then
              acc ++ [{ concept with
                hierarchy_level := some 4
                parent_cluster_id := some cluster.id
                parent_concept_id := some ref_id }]
            else if 5 ≤ target_depth then
              if should_create_subconcepts concept relation_graph then
                acc ++
                  (create_sub_concepts concept relation_graph cluster.doc_id).map
                    (fun sub => { sub with
                      hierarchy_level := some 5
                      parent_cluster_id := some cluster.id
                      parent_concept_id := some concept.id }) ++
                  [{ concept with
                    hierarchy_level := some 4
                    parent_cluster_id := some cluster.id
                    parent_concept_id := some ref_id }]
              else
                acc ++ [{ concept with
                  hierarchy_level := some 4
                  parent_cluster_id := some cluster.id
                  parent_concept_id := some ref_id }]
            else acc ++ [concept]) acc) acc
    else
      cluster.concepts.foldl (fun acc concept =>
        acc ++ [{ concept with
          hierarchy_level := some (if 4 ≤ target_depth then 4 else 3)
          parent_cluster_id := some cluster.id
          parent_concept_id := none }]) acc) []


/-- A concrete concept used by the counterexample runs below. -/
def mkC (i : ℕ) : Concept :=
  { id := "c" ++ toString i, doc_id := "d", label := "L", type := "Topic", confidence := 1 }

/-- Ten concrete concepts: a cluster size on which floor and ceiling chunk
sizes differ. -/
def tenConcepts : List Concept := (List.range 10).map mkC

end AdaptiveHierarchy

namespace SemanticFolders

/-- The four sort weights of semantic_folders.py (a dictionary with keys
confidence, relation, recency, hierarchy). -/
structure SortWeights where
  confidence : ℚ
  relation : ℚ
  recency : ℚ
  hierarchy : ℚ
deriving DecidableEq

/-- Base weights used when no weights dictionary is supplied. -/
def baseWeights : SortWeights := { confidence := 0.5, relation := 0.2, recency := 0.2, hierarchy := 0.1 }

/-- calculate_auto_sort_score from semantic_folders.py. created_at is
modelled by the outcome of the datetime parse: some days_old for a parsable
timestamp (the integer day difference from now, negative for future dates),
none when parsing raises. A falsy (zero) confidence_weight is replaced by
0.5, exactly as the Python expression (confidence_weight or 0.5) does. -/
def calculate_auto_sort_score (confidence_weight : ℚ) (relation_count : ℤ)
    (days_old : Option ℤ) (hierarchy_level : ℤ) (weights : Option SortWeights) : ℚ :=
  let w := weights.getD baseWeights
  let relation_score := min ((relation_count : ℚ) / 20) 1
  let recency_score :=
    match days_old with
    | some d => max 0 (1 - (d : ℚ) / 365)
    | none => 0.5
  let hierarchy_bonus := max 0 (1 - (hierarchy_level : ℚ) / 4)
  round3 (w.confidence * (if confidence_weight = 0 then 0.5 else confidence_weight) +
    w.relation * relation_score + w.recency * recency_score + w.hierarchy * hierarchy_bonus)

/-- Modelled from the claim: the default-weight scoring formula exactly as
the claim words it, round(0.5*confidence + 0.2*min(relation_count/20, 1) +
0.2*recency + 0.1*max(0, 1 - hierarchy_level/4), 3) with recency
max(0, 1 - days_since/365) and default 0.5 on an unparsable timestamp, for
comparison with calculate_auto_sort_score. -/
def autoSortScoreClaim (confidence : ℚ) (relation_count : ℤ)
    (days_old : Option ℤ) (hierarchy_level : ℤ) : ℚ :=
  round3 (0.5 * confidence + 0.2 * min ((relation_count : ℚ) / 20) 1 +
    0.2 * (match days_old with
           | some d => max 0 (1 - (d : ℚ) / 365)
           | none => 0.5) +
    0.1 * max 0 (1 - (hierarchy_level : ℚ) / 4))

end SemanticFolders

namespace Api

/-- One candidate document of search step 5 in api.py: a member of
all_doc_ids whose metadata row exists, carrying the three signals computed
in steps 2 to 4.5 (title score, best concept confidence, semantic score;
0.0 for an absent signal, as the .get defaults produce). -/
structure DocCandidate where
  doc_id : String
  title : String
  title_score : ℚ
  concept_score : ℚ
  semantic_score : ℚ
deriving DecidableEq

/-- One entry of the results list built by search step 5 (the concepts
payload, not referenced by any claim, is omitted). -/
structure SearchResult where
  doc_id : String
  title : String
  score : ℚ
  match_type : String
deriving DecidableEq

/-- The threshold local of search: 0.15. -/
def searchThreshold : ℚ := 0.15

/-- Weighted score fusion of search step 5: 0.4/0.2/0.4 when semantic search
is enabled and the semantic score is positive, otherwise 0.6 title + 0.4
concept. -/
def fuseScore (semantic : Bool) (d : DocCandidate) : ℚ :=
  if semantic ∧ 0 < d.semantic_score then
    0.4 * d.title_score + 0.2 * d.concept_score + 0.4 * d.semantic_score
  else
    0.6 * d.title_score + 0.4 * d.concept_score

/-- Match-type classification of search step 5 (the if/elif chain on the
three signals). -/
def matchTypeOf (title_score concept_score semantic_score : ℚ) : String :=
  if title_score < semantic_score ∧ concept_score < semantic_score then "semantic"
  else if concept_score < title_score then "title"
  else if 0 < concept_score then "concept"
  else "fuzzy"

/-- The body of the per-document loop of search step 5: emit a result when
the fused score reaches the threshold, with the rounded score and the match
type; skip the document otherwise. -/
def processDoc (semantic : Bool) (d : DocCandidate) : Option SearchResult :=
  if searchThreshold ≤ fuseScore semantic d then
    some { doc_id := d.doc_id
           title := d.title
           score := round3 (fuseScore semantic d)
           match_type := matchTypeOf d.title_score d.concept_score d.semantic_score }
  else none

/-- The descending score order of the final results.sort(reverse=True);
Python list.sort is stable for exactly this relation, so the stable
insertionSort below computes the same list. -/
def scoreGE (a b : SearchResult) : Prop := b.score ≤ a.score

instance : DecidableRel scoreGE := fun a b =>
  inferInstanceAs (Decidable (b.score ≤ a.score))

/-- search step 5 over the candidate documents: keep the candidates whose
fused score reaches the threshold, then sort by rounded score descending. -/
def search_results (semantic : Bool) (candidates : List DocCandidate) : List SearchResult :=
  List.insertionSort scoreGE (candidates.filterMap (processDoc semantic))


/-- A concrete candidate whose fused lexical score is exactly the threshold. -/
def boundaryDoc : DocCandidate :=
  { doc_id := "doc1", title := "T", title_score := 0.25, concept_score := 0, semantic_score := 0 }

/-- A concrete candidate with one positive signal. -/
def titleOnlyDoc : DocCandidate :=
  { doc_id := "doc1", title := "T", title_score := 1, concept_score := 0, semantic_score := 0 }

/-- A concrete candidate whose semantic score ties the title score. -/
def tieDoc : DocCandidate :=
  { doc_id := "doc1", title := "T", title_score := 1, concept_score := 0, semantic_score := 1 }

end Api

namespace SemanticCluster

lemma addTargets_spec (edges : List (String × String)) (visited cluster queue : List String) :
    ∃ a : List String,
      (addTargets edges visited cluster queue).1 = cluster ++ a ∧
      (addTargets edges visited cluster queue).2 = queue ++ a ∧
      (∀ x ∈ a, x ∉ visited) ∧
      (∀ x ∈ a, x ∈ edges.map Prod.snd) ∧
      (cluster.Nodup → (cluster ++ a).Nodup) := by
  induction edges generalizing cluster queue with
  | nil =>
    exact ⟨[], by simp [addTargets], by simp [addTargets], by simp, by simp,
      fun h => by simpa using h⟩
  | cons e rest ih =>
    obtain ⟨rel_type, target⟩ := e
    by_cases h : rel_type ∈ clusterRelations ∧ target ∉ visited ∧ target ∉ cluster
    · obtain ⟨a, h1, h2, h3, h4, h5⟩ := ih (cluster ++ [target]) (queue ++ [target])
      refine ⟨target :: a, ?_, ?_, ?_, ?_, ?_⟩
      · simp only [addTargets, if_pos h]; rw [h1]; simp
      · simp only [addTargets, if_pos h]; rw [h2]; simp
      · intro x hx
        rcases List.mem_cons.mp hx with hx | hx
        · exact hx ▸ h.2.1
        · exact h3 x hx
      · intro x hx
        rcases List.mem_cons.mp hx with hx | hx
        · simp [hx]
        · simpa using Or.inr (by simpa using h4 x hx)
      · intro hnd
        have hnd' : (cluster ++ [target]).Nodup := by
          simp [List.nodup_append, hnd, h.2.2]
        have := h5 hnd'
        rwa [List.append_assoc, List.singleton_append] at this
    · obtain ⟨a, h1, h2, h3, h4, h5⟩ := ih cluster queue
      refine ⟨a, ?_, ?_, h3, ?_, h5⟩
      · simp only [addTargets, if_neg h]; exact h1
      · simp only [addTargets, if_neg h]; exact h2
      · intro x hx
        simpa using Or.inr (by simpa using h4 x hx)

lemma snd_mem_graphTargets {g : Graph} {x : String} {p : String × String}
    (hp : p ∈ graphGet g x) : p.2 ∈ graphTargets g := by
  unfold graphGet at hp
  cases hfind : g.find? (fun q => q.1 == x) with
  | none => rw [hfind] at hp; simp at hp
  | some entry =>
    rw [hfind] at hp
    simp only [Option.map_some', Option.getD_some] at hp
    have hmem := List.mem_of_find?_eq_some hfind
    unfold graphTargets
    rw [List.mem_flatten]
    exact ⟨entry.2.map Prod.snd, List.mem_map_of_mem _ hmem, List.mem_map_of_mem _ hp⟩

lemma bfs_spec (g : Graph) (s : String) :
    ∀ (fuel : Nat) (queue cluster visited : List String),
      cluster.Nodup →
      (∀ x ∈ queue, x ∈ cluster) →
      (∀ x ∈ cluster, x ∈ visited ∨ x ∈ queue) →
      (∀ x ∈ cluster, x ∈ s :: graphTargets g) →
      (s :: graphTargets g).length - cluster.length + queue.length ≤ fuel →
      (bfs g fuel queue cluster visited).1.Nodup ∧
      (∀ x ∈ cluster, x ∈ (bfs g fuel queue cluster visited).1) ∧
      (∀ x ∈ (bfs g fuel queue cluster visited).1, x ∈ (bfs g fuel queue cluster visited).2) ∧
      (∀ x ∈ visited, x ∈ (bfs g fuel queue cluster visited).2) ∧
      (∀ x ∈ (bfs g fuel queue cluster visited).1, x ∈ cluster ∨ x ∉ visited) := by
  intro fuel
  induction fuel with
  | zero =>
    intro queue cluster visited hnd hqc hcv hcu hfuel
    have hq : queue = [] := List.length_eq_zero.mp (by omega)
    subst hq
    simp only [bfs]
    exact ⟨hnd, fun x hx => hx,
      fun x hx => (hcv x hx).resolve_right (by simp),
      fun x hx => hx, fun x hx => Or.inl hx⟩
  | succ fuel ih =>
    intro queue cluster visited hnd hqc hcv hcu hfuel
    match queue with
    | [] =>
      simp only [bfs]
      exact ⟨hnd, fun x hx => hx,
        fun x hx => (hcv x hx).resolve_right (by simp),
        fun x hx => hx, fun x hx => Or.inl hx⟩
    | current :: rest =>
      obtain ⟨a, ha1, ha2, ha3, ha4, ha5⟩ :=
        addTargets_spec (graphGet g current) visited cluster rest
      have heq : bfs g (fuel + 1) (current :: rest) cluster visited =
          bfs g fuel (rest ++ a) (cluster ++ a) (visited ++ [current]) := by
        simp only [bfs]; rw [ha1, ha2]
      have hnd' : (cluster ++ a).Nodup := ha5 hnd
      have hqc' : ∀ x ∈ rest ++ a, x ∈ cluster ++ a := by
        intro x hx
        rcases List.mem_append.mp hx with hx | hx
        · exact List.mem_append_left _ (hqc x (List.mem_cons_of_mem _ hx))
        · exact List.mem_append_right _ hx
      have hcv' : ∀ x ∈ cluster ++ a, x ∈ visited ++ [current] ∨ x ∈ rest ++ a := by
        intro x hx
        rcases List.mem_append.mp hx with hx | hx
        · rcases hcv x hx with hv | hq
          · exact Or.inl (List.mem_append_left _ hv)
          · rcases List.mem_cons.mp hq with hq | hq
            · exact Or.inl (List.mem_append_right _ (by simp [hq]))
            · exact Or.inr (List.mem_append_left _ hq)
        · exact Or.inr (List.mem_append_right _ hx)
      have hcu' : ∀ x ∈ cluster ++ a, x ∈ s :: graphTargets g := by
        intro x hx
        rcases List.mem_append.mp hx with hx | hx
        · exact hcu x hx
        · obtain ⟨p, hp, hpx⟩ := List.mem_map.mp (ha4 x hx)
          exact hpx ▸ List.mem_cons_of_mem _ (snd_mem_graphTargets hp)
      have hsub : (cluster ++ a).length ≤ (s :: graphTargets g).length :=
        (hnd'.subperm (fun x hx => hcu' x hx)).length_le
      have hfuel' : (s :: graphTargets g).length - (cluster ++ a).length +
          (rest ++ a).length ≤ fuel := by
        simp only [List.length_append] at *
        simp only [List.length_cons] at *
        omega
      obtain ⟨p1, p2, p3, p4, p5⟩ :=
        ih (rest ++ a) (cluster ++ a) (visited ++ [current]) hnd' hqc' hcv' hcu' hfuel'
      rw [heq]
      refine ⟨p1, fun x hx => p2 x (List.mem_append_left _ hx), p3,
        fun x hx => p4 x (List.mem_append_left _ hx), ?_⟩
      intro x hx
      rcases p5 x hx with hx' | hnv
      · rcases List.mem_append.mp hx' with h | h
        · exact Or.inl h
        · exact Or.inr (ha3 x h)
      · exact Or.inr (fun hv => hnv (List.mem_append_left _ hv))

lemma identifyAux_spec (g : Graph) :
    ∀ (concepts : List Concept) (clusters : List (List String)) (visited : List String),
      (∀ cl ∈ clusters, cl.Nodup ∧ 2 ≤ cl.length) →
      (∀ cl ∈ clusters, ∀ x ∈ cl, x ∈ visited) →
      List.Pairwise (fun c1 c2 => ∀ x ∈ c1, x ∉ c2) clusters →
      (∀ cl ∈ identifyAux g concepts clusters visited, cl.Nodup ∧ 2 ≤ cl.length) ∧
      List.Pairwise (fun c1 c2 => ∀ x ∈ c1, x ∉ c2) (identifyAux g concepts clusters visited) := by
  intro concepts
  induction concepts with
  | nil =>
    intro clusters visited h1 h2 h3
    simpa only [identifyAux] using ⟨h1, h3⟩
  | cons c rest ih =>
    intro clusters visited h1 h2 h3
    by_cases hv : c.concept_id ∈ visited
    · simp only [identifyAux, if_pos hv]
      exact ih clusters visited h1 h2 h3
    · have hfuel : (c.concept_id :: graphTargets g).length - ([c.concept_id] : List String).length +
          ([c.concept_id] : List String).length ≤ bfsFuel g := by
        simp only [bfsFuel, List.length_cons, List.length_nil]
        omega
      obtain ⟨q1, q2, q3, q4, q5⟩ :=
        bfs_spec g c.concept_id (bfsFuel g) [c.concept_id] [c.concept_id] visited
          (by simp) (fun x hx => hx) (fun x hx => Or.inr hx)
          (fun x hx => by rcases List.mem_singleton.mp hx with rfl; exact List.mem_cons_self _ _)
          hfuel
      by_cases hlen :
          2 ≤ (bfs g (bfsFuel g) [c.concept_id] [c.concept_id] visited).1.length
      · simp only [identifyAux, if_neg hv, if_pos hlen]
        apply ih
        · intro cl hcl
          rcases List.mem_append.mp hcl with hcl | hcl
          · exact h1 cl hcl
          · rcases List.mem_singleton.mp hcl with rfl
            exact ⟨q1, hlen⟩
        · intro cl hcl x hx
          rcases List.mem_append.mp hcl with hcl | hcl
          · exact q4 x (h2 cl hcl x hx)
          · rcases List.mem_singleton.mp hcl with rfl
            exact q3 x hx
        · rw [List.pairwise_append]
          refine ⟨h3, by simp, ?_⟩
          intro cl hcl cl' hcl' x hx hx'
          rcases List.mem_singleton.mp hcl' with rfl
          have hxv : x ∈ visited := h2 cl hcl x hx
          rcases q5 x hx' with hs | hnv
          · rcases List.mem_singleton.mp hs with rfl
            exact hv hxv
          · exact hnv hxv
      · simp only [identifyAux, if_neg hv, if_neg hlen]
        exact ih clusters _ h1 (fun cl hcl x hx => q4 x (h2 cl hcl x hx)) h3

/-- C1: build_relation_graph does insert both directions of every relation,
but the reverse edge carries the relation type prefixed with a tilde, which
is never in the allow-list, so identify_clusters follows allow-listed
relations only from source to destination. Concretely: with the single
allow-listed relation A defines B and the concepts visited in the order B, A,
the traversal seeded at B cannot leave B, and the later traversal seeded at A
refuses the already-visited B, so no cluster is formed at all and A and B do
not end up in a common component, contradicting the claimed
order-independence. The evaluation below exhibits exactly this run. -/
theorem allowlisted_relation_not_clustered :
    ("defines" : String) ∈ clusterRelations ∧
    identify_clusters [⟨"B", "beta"⟩, ⟨"A", "alpha"⟩]
        (build_relation_graph [⟨"A", "defines", "B"⟩]) = [] ∧
    identify_clusters [⟨"A", "alpha"⟩, ⟨"B", "beta"⟩]
        (build_relation_graph [⟨"A", "defines", "B"⟩]) = [["A", "B"]] := by
  decide

/-- C4: the clusters returned by identify_clusters form a partial
decomposition of the ids: each returned cluster has no duplicate members and
at least 2 members, and the clusters are pairwise disjoint, so every id
belongs to at most one cluster. -/
theorem identify_clusters_partition (concepts : List Concept) (g : Graph) :
    (∀ cl ∈ identify_clusters concepts g, cl.Nodup ∧ 2 ≤ cl.length) ∧
    List.Pairwise (fun c1 c2 => ∀ x ∈ c1, x ∉ c2) (identify_clusters concepts g) :=
  identifyAux_spec g concepts [] [] (by simp) (by simp) (by simp)

/-- Witness for identify_clusters_partition at a concrete run producing one
cluster. -/
theorem identify_clusters_partition_witness :
    (["A", "B"] ∈ identify_clusters [⟨"A", "alpha"⟩, ⟨"B", "beta"⟩]
        (build_relation_graph [⟨"A", "defines", "B"⟩])) ∧
    (["A", "B"] : List String).Nodup ∧ 2 ≤ (["A", "B"] : List String).length :=
  ⟨by decide,
    (identify_clusters_partition [⟨"A", "alpha"⟩, ⟨"B", "beta"⟩]
        (build_relation_graph [⟨"A", "defines", "B"⟩])).1 ["A", "B"] (by decide)⟩

end SemanticCluster

namespace AdaptiveHierarchy

lemma chunkGo_spec (gs : ℕ) (hgs : 1 ≤ gs) :
    ∀ (n : ℕ) (l : List α), l.length ≤ n →
      (chunkGo gs n l).flatten = l ∧
      (∀ grp ∈ chunkGo gs n l, grp ≠ [] ∧ grp.length ≤ gs) ∧
      (∀ grp ∈ (chunkGo gs n l).dropLast, grp.length = gs) := by
  intro n
  induction n with
  | zero =>
    intro l hl
    have : l = [] := List.length_eq_zero.mp (by omega)
    subst this
    simp [chunkGo]
  | succ n ih =>
    intro l hl
    match l with
    | [] => simp [chunkGo]
    | x :: xs =>
      have hxs : (xs.drop (gs - 1)).length ≤ n := by
        simp only [List.length_cons] at hl
        simp only [List.length_drop]
        omega
      obtain ⟨ihf, ihm, ihd⟩ := ih (xs.drop (gs - 1)) hxs
      refine ⟨?_, ?_, ?_⟩
      · simp only [chunkGo, List.flatten_cons, ihf, List.cons_append,
          List.take_append_drop]
      · intro grp hgrp
        simp only [chunkGo, List.mem_cons] at hgrp
        rcases hgrp with rfl | hgrp
        · refine ⟨by simp, ?_⟩
          simp only [List.length_cons, List.length_take]
          omega
        · exact ihm grp hgrp
      · intro grp hgrp
        simp only [chunkGo] at hgrp
        by_cases hrest : chunkGo gs n (xs.drop (gs - 1)) = []
        · rw [hrest] at hgrp
          simp at hgrp
        · rw [List.dropLast_cons_of_ne_nil hrest] at hgrp
          rcases List.mem_cons.mp hgrp with rfl | hgrp
          · have hdrop : xs.drop (gs - 1) ≠ [] := by
              intro hd
              rw [hd] at hrest
              exact hrest (by simp [chunkGo])
            have : gs - 1 < xs.length := by
              by_contra hge
              exact hdrop (List.drop_eq_nil_of_le (by omega))
            simp only [List.length_cons, List.length_take]
            omega
          · exact ihd grp hgrp

/-- C2 counterexample: on a cluster of 10 members the source uses chunk size
max 3 (10 / 3) = 3 (floor division), producing groups of sizes 3, 3, 3, 1,
while the claimed ceiling rule max 3 (ceil (10 / 3)) = 4 would produce sizes
4, 4, 2; the two disagree. -/
theorem create_refinement_groups_ceiling_counterexample :
    create_refinement_groups tenConcepts [] ≠ create_refinement_groups_claim tenConcepts [] ∧
    (create_refinement_groups tenConcepts []).map List.length = [3, 3, 3, 1] ∧
    (create_refinement_groups_claim tenConcepts []).map List.length = [4, 4, 2] := by
  decide

/-- C2 (amended): for a cluster of more than 5 members,
create_refinement_groups stably sorts the members by relation-degree
descending and cuts the sorted list into contiguous chunks of size
max 3 (floor (member_count / 3)): the concatenation of the groups is exactly
the sorted member list (a permutation of the members, ordered by descending
degree), every group is non-empty with at most that chunk size, and every
group except possibly the last has exactly that size. A cluster of 5 or
fewer members is returned whole. -/
theorem create_refinement_groups_chunking (concepts : List Concept) (g : RelationGraph) :
    (concepts.length ≤ 5 → create_refinement_groups concepts g = [concepts]) ∧
    (5 < concepts.length →
      (create_refinement_groups concepts g).flatten =
          List.insertionSort (degreeGE g) concepts ∧
      ((create_refinement_groups concepts g).flatten).Perm concepts ∧
      List.Pairwise (degreeGE g) ((create_refinement_groups concepts g).flatten) ∧
      (∀ grp ∈ create_refinement_groups concepts g,
        grp ≠ [] ∧ grp.length ≤ max 3 (concepts.length / 3)) ∧
      (∀ grp ∈ (create_refinement_groups concepts g).dropLast,
        grp.length = max 3 (concepts.length / 3))) := by
  constructor
  · intro h
    simp [create_refinement_groups, h]
  · intro h
    have hnot : ¬ concepts.length ≤ 5 := by omega
    have hgs : 1 ≤ max 3 (concepts.length / 3) :=
      le_trans (by norm_num) (le_max_left _ _)
    obtain ⟨hf, hm, hd⟩ := chunkGo_spec (max 3 (concepts.length / 3)) hgs
      (List.insertionSort (degreeGE g) concepts).length
      (List.insertionSort (degreeGE g) concepts) le_rfl
    have hunfold : create_refinement_groups concepts g =
        chunkGroups (max 3 (concepts.length / 3))
          (List.insertionSort (degreeGE g) concepts) := by
      simp [create_refinement_groups, hnot]
    rw [hunfold]
    unfold chunkGroups
    refine ⟨hf, ?_, ?_, hm, hd⟩
    · rw [hf]
      exact List.perm_insertionSort _ _
    · rw [hf]
      letI : IsTotal Concept (degreeGE g) := ⟨fun a b => le_total _ _⟩
      letI : IsTrans Concept (degreeGE g) := ⟨fun _ _ _ hab hbc => le_trans hbc hab⟩
      exact List.sorted_insertionSort _ _

/-- Witness for create_refinement_groups_chunking on the concrete ten-member
cluster. -/
theorem create_refinement_groups_chunking_witness :
    5 < tenConcepts.length ∧
    ((create_refinement_groups tenConcepts []).flatten).Perm tenConcepts :=
  ⟨by decide,
    ((create_refinement_groups_chunking tenConcepts []).2 (by decide)).2.1⟩

/-- C3: determine_hierarchy_depth is a pure function returning 4 unless
doc_length > 2000 or concept_count > 40 (then 5), and 6 whenever
doc_length > 5000 or concept_count > 80; for fixed concept and cluster
counts it is non-decreasing in doc_length, and it takes the three claimed
values at (1000,10,2), (2500,10,2) and (6000,10,2). -/
theorem determine_hierarchy_depth_spec :
    (∀ d cc clc : ℕ, ¬(2000 < d ∨ 40 < cc) → determine_hierarchy_depth d cc clc = 4) ∧
    (∀ d cc clc : ℕ, (2000 < d ∨ 40 < cc) → ¬(5000 < d ∨ 80 < cc) →
      determine_hierarchy_depth d cc clc = 5) ∧
    (∀ d cc clc : ℕ, (5000 < d ∨ 80 < cc) → determine_hierarchy_depth d cc clc = 6) ∧
    (∀ d1 d2 cc clc : ℕ, d1 ≤ d2 →
      determine_hierarchy_depth d1 cc clc ≤ determine_hierarchy_depth d2 cc clc) ∧
    determine_hierarchy_depth 1000 10 2 = 4 ∧
    determine_hierarchy_depth 2500 10 2 = 5 ∧
    determine_hierarchy_depth 6000 10 2 = 6 := by
  refine ⟨?_, ?_, ?_, ?_, by decide, by decide, by decide⟩
  · intro d cc clc h
    simp only [determine_hierarchy_depth]
    split_ifs <;> omega
  · intro d cc clc h1 h2
    simp only [determine_hierarchy_depth]
    split_ifs <;> omega
  · intro d cc clc h
    simp only [determine_hierarchy_depth]
    split_ifs <;> omega
  · intro d1 d2 cc clc h
    simp only [determine_hierarchy_depth]
    split_ifs <;> omega

/-- Witness for determine_hierarchy_depth_spec at concrete inputs. -/
theorem determine_hierarchy_depth_spec_witness :
    ¬(2000 < 1000 ∨ 40 < 10) ∧ determine_hierarchy_depth 1000 10 2 = 4 :=
  ⟨by decide, determine_hierarchy_depth_spec.1 1000 10 2 (by decide)⟩

/-- C5: with the label provider fixed, build_adaptive_hierarchy is a pure
function of the original flat input, so two runs on the same input produce
structurally equal output: the same concept list, and in particular identical
synthetic ids and identical hierarchy_level, parent_cluster_id and
parent_concept_id assignments. -/
theorem build_adaptive_hierarchy_deterministic
    (labelFn : List Concept → String → String) (concepts : List Concept)
    (clusters : List Cluster) (relation_graph : RelationGraph) (doc_length : ℕ) :
    build_adaptive_hierarchy labelFn concepts clusters relation_graph doc_length =
      build_adaptive_hierarchy labelFn concepts clusters relation_graph doc_length ∧
    (build_adaptive_hierarchy labelFn concepts clusters relation_graph doc_length).map
        (fun c => (c.id, c.hierarchy_level, c.parent_cluster_id, c.parent_concept_id)) =
      (build_adaptive_hierarchy labelFn concepts clusters relation_graph doc_length).map
        (fun c => (c.id, c.hierarchy_level, c.parent_cluster_id, c.parent_concept_id)) :=
  ⟨rfl, rfl⟩

end AdaptiveHierarchy

namespace SemanticFolders

/-- C8 counterexample: at confidence 0 the source replaces the confidence by
0.5 before weighting (the Python or-default), so the default-weight score at
(confidence 0, relation_count 0, unparsable timestamp, hierarchy_level 4) is
0.35, while the claimed formula 0.5*confidence + ... yields 0.1. -/
theorem auto_sort_zero_confidence_counterexample :
    calculate_auto_sort_score 0 0 none 4 none = 0.35 ∧
    autoSortScoreClaim 0 0 none 4 = 0.1 ∧
    calculate_auto_sort_score 0 0 none 4 none ≠ autoSortScoreClaim 0 0 none 4 := by
  refine ⟨?_, ?_, ?_⟩ <;>
    norm_num [calculate_auto_sort_score, autoSortScoreClaim, baseWeights, round3,
      min_def, max_def]

/-- C8 (amended): for every nonzero confidence the default-weight score of
calculate_auto_sort_score is exactly the claimed formula
round(0.5*confidence + 0.2*min(relation_count/20, 1) +
0.2*max(0, 1 - days_since/365) + 0.1*max(0, 1 - hierarchy_level/4), 3), with
recency defaulting to 0.5 on an unparsable timestamp; a zero (falsy)
confidence is first replaced by 0.5. At (confidence 1, relation_count 20,
created_at now, hierarchy_level 0) the score is exactly 1. -/
theorem calculate_auto_sort_score_claim_formula :
    (∀ (conf : ℚ) (rc : ℤ) (days : Option ℤ) (hl : ℤ), conf ≠ 0 →
      calculate_auto_sort_score conf rc days hl none = autoSortScoreClaim conf rc days hl) ∧
    calculate_auto_sort_score 1 20 (some 0) 0 none = 1 := by
  constructor
  · intro conf rc days hl h
    simp [calculate_auto_sort_score, autoSortScoreClaim, baseWeights, h]
  · norm_num [calculate_auto_sort_score, baseWeights, round3, min_def, max_def]

/-- Witness for calculate_auto_sort_score_claim_formula at confidence 1. -/
theorem calculate_auto_sort_score_claim_formula_witness :
    (1 : ℚ) ≠ 0 ∧
    calculate_auto_sort_score 1 0 none 0 none = autoSortScoreClaim 1 0 none 0 :=
  ⟨by norm_num, calculate_auto_sort_score_claim_formula.1 1 0 none 0 (by norm_num)⟩

/-- C9: a confidence of 0 is falsy in Python, so the or-default replaces it
by 0.5 and the score equals the score at confidence 0.5, for every other
argument and every weights dictionary. -/
theorem auto_sort_score_zero_eq_half_confidence (rc : ℤ) (days : Option ℤ) (hl : ℤ)
    (w : Option SortWeights) :
    calculate_auto_sort_score 0 rc days hl w = calculate_auto_sort_score 0.5 rc days hl w := by
  norm_num [calculate_auto_sort_score]

end SemanticFolders

namespace Api

/-- C6: the fused score of a candidate follows the enabled/positive semantic
split with weights 0.4/0.2/0.4 and 0.6/0.4, and a candidate appears among the
search results exactly when its fused score is at least 0.15 (so a fused
score of exactly 0.15 is included and any smaller score is excluded). -/
theorem search_fusion_and_threshold (semantic : Bool) (cands : List DocCandidate)
    (d : DocCandidate) (hmem : d ∈ cands)
    (hnodup : (cands.map DocCandidate.doc_id).Nodup) :
    fuseScore semantic d =
      (if semantic ∧ 0 < d.semantic_score then
        0.4 * d.title_score + 0.2 * d.concept_score + 0.4 * d.semantic_score
      else 0.6 * d.title_score + 0.4 * d.concept_score) ∧
    ((∃ r ∈ search_results semantic cands, r.doc_id = d.doc_id) ↔
      (0.15 : ℚ) ≤ fuseScore semantic d) := by
  refine ⟨rfl, ?_⟩
  constructor
  · rintro ⟨r, hr, hid⟩
    have hr' : r ∈ cands.filterMap (processDoc semantic) :=
      (List.perm_insertionSort scoreGE _).subset hr
    obtain ⟨d', hd', hpd⟩ := List.mem_filterMap.mp hr'
    unfold processDoc at hpd
    by_cases hth : searchThreshold ≤ fuseScore semantic d'
    · rw [if_pos hth] at hpd
      have hrec := Option.some.inj hpd
      have hdid : d'.doc_id = d.doc_id := by rw [← hid, ← hrec]
      have hdd : d' = d := List.inj_on_of_nodup_map hnodup hd' hmem hdid
      subst hdd
      simpa [searchThreshold] using hth
    · rw [if_neg hth] at hpd
      exact absurd hpd (by simp)
  · intro h
    refine ⟨{ doc_id := d.doc_id, title := d.title,
              score := round3 (fuseScore semantic d),
              match_type := matchTypeOf d.title_score d.concept_score d.semantic_score },
            ?_, rfl⟩
    apply (List.perm_insertionSort scoreGE _).mem_iff.mpr
    apply List.mem_filterMap.mpr
    refine ⟨d, hmem, ?_⟩
    unfold processDoc
    rw [if_pos (by simpa [searchThreshold] using h)]

/-- Witness for search_fusion_and_threshold at a candidate whose fused score
is exactly the 0.15 boundary (included). -/
theorem search_fusion_and_threshold_witness :
    (boundaryDoc ∈ [boundaryDoc] ∧ ([boundaryDoc].map DocCandidate.doc_id).Nodup) ∧
    (∃ r ∈ search_results false [boundaryDoc], r.doc_id = boundaryDoc.doc_id) :=
  ⟨⟨by simp, by simp⟩,
    ((search_fusion_and_threshold false [boundaryDoc] boundaryDoc (by simp) (by simp)).2).mpr
      (by norm_num [fuseScore, boundaryDoc])⟩

/-- C7 counterexample: a passing result whose semantic score equals the
largest other component (title) is classified title, not semantic: the tie
is broken against the semantic signal. -/
theorem match_type_semantic_tie_counterexample :
    (search_results true [tieDoc]).map SearchResult.match_type = ["title"] ∧
    ("title" : String) ≠ "semantic" := by
  constructor
  · norm_num [search_results, processDoc, fuseScore, matchTypeOf, searchThreshold,
      tieDoc, List.filterMap_cons, List.insertionSort]
  · decide

/-- C7 (amended): the match type is the signal with the strictly largest
component: semantic only when the semantic score strictly exceeds both title
and concept scores, title when the title score strictly exceeds the other
two, concept when the concept score strictly exceeds the other two (with a
non-negative title score). On ties the later branch of the if/elif chain
wins, so a semantic score merely equal to the largest other component does
not classify as semantic. -/
theorem match_type_strict_argmax (t c s : ℚ) (ht : 0 ≤ t) :
    (t < s → c < s → matchTypeOf t c s = "semantic") ∧
    (s < t → c < t → matchTypeOf t c s = "title") ∧
    (s < c → t < c → matchTypeOf t c s = "concept") := by
  refine ⟨fun h1 h2 => ?_, fun h1 h2 => ?_, fun h1 h2 => ?_⟩
  · unfold matchTypeOf
    rw [if_pos ⟨h1, h2⟩]
  · unfold matchTypeOf
    rw [if_neg (fun hh => absurd hh.1 (not_lt.mpr h1.le)), if_pos h2]
  · have hc : 0 < c := lt_of_le_of_lt ht h2
    unfold matchTypeOf
    rw [if_neg (fun hh => absurd hh.2 (not_lt.mpr h1.le)),
      if_neg (not_lt.mpr h2.le), if_pos hc]

/-- Witness for match_type_strict_argmax with a strictly dominant semantic
score. -/
theorem match_type_strict_argmax_witness :
    (0 : ℚ) ≤ 0 ∧ matchTypeOf 0 0 1 = "semantic" :=
  ⟨le_refl 0, (match_type_strict_argmax 0 0 1 (le_refl 0)).1 (by norm_num) (by norm_num)⟩

lemma matchTypeOf_fuzzy_zero {t c s : ℚ} (ht : 0 ≤ t) (hc : 0 ≤ c) (hs : 0 ≤ s)
    (h : matchTypeOf t c s = "fuzzy") : t = 0 ∧ c = 0 ∧ s = 0 := by
  unfold matchTypeOf at h
  split_ifs at h with h1 h2 h3
  · exact absurd h (by decide)
  · exact absurd h (by decide)
  · exact absurd h (by decide)
  · have hc0 : c = 0 := le_antisymm (not_lt.mp h3) hc
    have ht0 : t = 0 := le_antisymm (hc0 ▸ not_lt.mp h2) ht
    refine ⟨ht0, hc0, ?_⟩
    by_contra hne
    have hpos : 0 < s := lt_of_le_of_ne hs (Ne.symm hne)
    exact h1 ⟨ht0 ▸ hpos, hc0 ▸ hpos⟩

/-- C10: when the title, concept and semantic scores of every candidate are
non-negative, no search result carries match type fuzzy: that branch needs
all three signals to be zero, which makes the fused score zero, below the
0.15 threshold, so such a candidate is never emitted. -/
theorem no_fuzzy_match_type_in_results (semantic : Bool) (cands : List DocCandidate)
    (hnn : ∀ d ∈ cands, 0 ≤ d.title_score ∧ 0 ≤ d.concept_score ∧ 0 ≤ d.semantic_score) :
    ∀ r ∈ search_results semantic cands, r.match_type ≠ "fuzzy" := by
  intro r hr hfz
  have hr' : r ∈ cands.filterMap (processDoc semantic) :=
    (List.perm_insertionSort scoreGE _).subset hr
  obtain ⟨d, hd, hpd⟩ := List.mem_filterMap.mp hr'
  unfold processDoc at hpd
  by_cases hth : searchThreshold ≤ fuseScore semantic d
  · rw [if_pos hth] at hpd
    have hrec := Option.some.inj hpd
    subst hrec
    obtain ⟨h1, h2, h3⟩ := hnn d hd
    obtain ⟨ht0, hc0, hs0⟩ := matchTypeOf_fuzzy_zero h1 h2 h3 hfz
    unfold fuseScore at hth
    rw [ht0, hc0, hs0] at hth
    split_ifs at hth <;> norm_num [searchThreshold] at hth
  · rw [if_neg hth] at hpd
    exact absurd hpd (by simp)

/-- Witness for no_fuzzy_match_type_in_results on a concrete candidate list
with non-negative scores. -/
theorem no_fuzzy_match_type_in_results_witness :
    (∀ d ∈ [titleOnlyDoc], 0 ≤ d.title_score ∧ 0 ≤ d.concept_score ∧ 0 ≤ d.semantic_score) ∧
    (∀ r ∈ search_results false [titleOnlyDoc], r.match_type ≠ "fuzzy") :=
  ⟨by
    intro d hd
    rw [List.mem_singleton] at hd
    subst hd
    norm_num [titleOnlyDoc],
   no_fuzzy_match_type_in_results false [titleOnlyDoc] (by
    intro d hd
    rw [List.mem_singleton] at hd
    subst hd
    norm_num [titleOnlyDoc])⟩

end Api

end LoomLite
